import Mathlib

/-!
Shallow embedding of the mc-telemetry-driver transaction/segment tracking
engine (Go sources: pkg/teldrvr/local.go and the nrZerolog driver file).

Go maps are modelled as association lists; a possibly-nil Go map is
`Option (GoMap α β)` where `none` models the nil map.  Writing to a nil map
is a Go runtime panic, modelled with `Except GoPanic`.  Backend emissions
(log lines) are modelled as lists of records accumulated by each operation.
-/

set_option linter.unusedSectionVars false

/-- Association-list model of a Go map. -/
abbrev GoMap (α β : Type) : Type := List (α × β)

namespace GoMap

variable {α β : Type} [DecidableEq α]

/-- Lookup, `v, ok := m[k]` (the `ok` form is `(find? m k).isSome`). -/
def find? : GoMap α β → α → Option β
  | [], _ => none
  | (k, v) :: m, a => if k = a then some v else find? m a

/-- Map assignment `m[k] = v`: overwrite the binding if present, else add it. -/
def insert : GoMap α β → α → β → GoMap α β
  | [], a, b => [(a, b)]
  | (k, v) :: m, a, b => if k = a then (a, b) :: m else (k, v) :: insert m a b

/-- `delete(m, k)`. -/
def erase : GoMap α β → α → GoMap α β
  | [], _ => []
  | (k, v) :: m, a => if k = a then erase m a else (k, v) :: erase m a

end GoMap

/-- Lookup through a possibly-nil Go map (`none` = nil map); a read on a nil
map yields the missing-key result, exactly as in Go. -/
def findNil {α β : Type} [DecidableEq α] (m : Option (GoMap α β)) (a : α) : Option β :=
  match m with
  | none => none
  | some mm => mm.find? a

/-- `delete` on a possibly-nil Go map: deleting from a nil map is a no-op. -/
def eraseNil {α β : Type} [DecidableEq α] (m : Option (GoMap α β)) (a : α) :
    Option (GoMap α β) :=
  m.map (fun mm => mm.erase a)

/-- How `fmt` renders a map value: a nil map prints exactly like an empty one. -/
def render {α β : Type} (m : Option (GoMap α β)) : GoMap α β := m.getD []

/-- The configured verbosity (`telemetry.logLevel`): one of debug/error/info. -/
inductive LogLevel where
  | debug
  | error
  | info
deriving DecidableEq

/-- The Go errors the tracker returns (identified by which format string
local.go builds, with the interpolated identifiers). -/
inductive Err where
  | transactionAttributeAlreadySet (key : String)
  | segmentNameNotFound (segmentID : String)
  | segmentNotFound (segmentID key : String)
  | attributeAlreadySet (segment segmentID key : String)
  | segmentNotOpen (segmentID : String)
  | readError
deriving DecidableEq

/-- A Go runtime panic: assigning to a nil map. -/
inductive GoPanic where
  | nilMapWrite
deriving DecidableEq

/-- One backend record emitted by the local driver (one log line).  A message
record carries the segment block `(name, segmentID, attributes)` only when the
builder's `inSegment` branch ran. -/
inductive LocalRecord (V : Type) where
  | segStart (segmentID name : String)
  | segEnd (segmentID name : String)
  | errorMsg (trace transaction : String) (transactionAttributes : GoMap String V)
      (segment : Option (String × String × GoMap String V)) (msg : List Char)
  | infoMsg (trace transaction : String) (transactionAttributes : GoMap String V)
      (segment : Option (String × String × GoMap String V)) (msg : List Char)
  | txEnd (transaction : String)
deriving DecidableEq

/-- `LocalSegmentContainer` from local.go (the mutex is the serialization of
operations in this sequential embedding). -/
structure LocalSegmentContainer (V : Type) where
  segments : Option (GoMap String String)
  attributes : Option (GoMap String (GoMap String V))
  segmentsStartWasLogged : GoMap String Unit
deriving DecidableEq

/-- `LocalTransaction` from local.go. -/
structure LocalTransaction (V : Type) where
  transaction : String
  segmentContainer : LocalSegmentContainer V
  attributes : Option (GoMap String V)
  trace : String
  processID : String
deriving DecidableEq

/-- `newLocalTransaction`: every map freshly allocated (non-nil, empty). -/
def newLocalTransaction (V : Type) (name : String) : LocalTransaction V :=
  { transaction := name
    segmentContainer :=
      { segments := some []
        attributes := some []
        segmentsStartWasLogged := [] }
    attributes := some []
    trace := ""
    processID := "" }

variable {V : Type} [DecidableEq V]

/-- A step of the engine: successor state, emitted backend records (in
emission order) and the Go return value (`none` = nil error). -/
abbrev LocalStep (V : Type) : Type :=
  LocalTransaction V × List (LocalRecord V) × Option Err

/-- `segmentWriteStart` (local.go): lazily emit the start record once. -/
def LocalTransaction.segmentWriteStart (t : LocalTransaction V) (segmentID : String) :
    LocalStep V :=
  if (t.segmentContainer.segmentsStartWasLogged.find? segmentID).isSome then
    (t, [], none)
  else
    match findNil t.segmentContainer.segments segmentID with
    | none => (t, [], some (Err.segmentNameNotFound segmentID))
    | some name =>
      let c1 : LocalSegmentContainer V :=
        { t.segmentContainer with
            segmentsStartWasLogged :=
              t.segmentContainer.segmentsStartWasLogged.insert segmentID () }
      ({ t with segmentContainer := c1 },
       [LocalRecord.segStart segmentID name], none)

/-- `SegmentStart` (local.go): always registers the segment; at debug level it
also drives the lazy start emission.  The map assignment panics when the
segments map is nil (after `Erase`). -/
def LocalTransaction.SegmentStart (t : LocalTransaction V) (lvl : LogLevel)
    (segmentID name : String) : Except GoPanic (LocalStep V) :=
  match t.segmentContainer.segments with
  | none => Except.error GoPanic.nilMapWrite
  | some m =>
    let c1 : LocalSegmentContainer V :=
      { t.segmentContainer with segments := some (m.insert segmentID name) }
    let t1 : LocalTransaction V := { t with segmentContainer := c1 }
    if lvl = LogLevel.debug then Except.ok (t1.segmentWriteStart segmentID)
    else Except.ok (t1, [], none)

/-- `AddTransactionAttribute` (local.go): set-once transaction attribute; the
write panics when the attributes map is nil (after `Erase`). -/
def LocalTransaction.AddTransactionAttribute (t : LocalTransaction V)
    (key : String) (value : V) :
    Except GoPanic (LocalTransaction V × Option Err) :=
  match t.attributes with
  | none => Except.error GoPanic.nilMapWrite
  | some m =>
    match m.find? key with
    | some _ => Except.ok (t, some (Err.transactionAttributeAlreadySet key))
    | none => Except.ok ({ t with attributes := some (m.insert key value) }, none)

/-- `AddSegmentAttribute` (local.go): requires the segment to be open, then a
set-once write into the segment's attribute bag.  Allocating the inner bag
panics when the outer attributes map is nil. -/
def LocalTransaction.AddSegmentAttribute (t : LocalTransaction V)
    (segmentID key : String) (value : V) : Except GoPanic (LocalStep V) :=
  match findNil t.segmentContainer.segments segmentID with
  | none => Except.ok (t, [], some (Err.segmentNotFound segmentID key))
  | some segmentName =>
    match t.segmentContainer.attributes with
    | none => Except.error GoPanic.nilMapWrite
    | some outer =>
      let inner : GoMap String V := (outer.find? segmentID).getD []
      match inner.find? key with
      | some _ =>
        Except.ok (t, [], some (Err.attributeAlreadySet segmentName segmentID key))
      | none =>
        let c1 : LocalSegmentContainer V :=
          { t.segmentContainer with
              attributes := some (outer.insert segmentID (inner.insert key value)) }
        Except.ok ({ t with segmentContainer := c1 }, [], none)

/-- `segmentWriteEnd` (local.go): silent free when the start was never
emitted; otherwise emit the end record, then free everything. -/
def LocalTransaction.segmentWriteEnd (t : LocalTransaction V) (segmentID : String) :
    LocalStep V :=
  if (t.segmentContainer.segmentsStartWasLogged.find? segmentID).isSome = false then
    let c1 : LocalSegmentContainer V :=
      { t.segmentContainer with
          segments := eraseNil t.segmentContainer.segments segmentID
          attributes := eraseNil t.segmentContainer.attributes segmentID }
    ({ t with segmentContainer := c1 }, [], none)
  else
    match findNil t.segmentContainer.segments segmentID with
    | none => (t, [], some (Err.segmentNotOpen segmentID))
    | some name =>
      let c1 : LocalSegmentContainer V :=
        { segments := eraseNil t.segmentContainer.segments segmentID
          attributes := eraseNil t.segmentContainer.attributes segmentID
          segmentsStartWasLogged :=
            t.segmentContainer.segmentsStartWasLogged.erase segmentID }
      ({ t with segmentContainer := c1 },
       [LocalRecord.segEnd segmentID name], none)

/-- `SegmentEnd` (local.go): error when the id is not open; otherwise run
`segmentWriteEnd`, whose return value line 170 discards (returns nil). -/
def LocalTransaction.SegmentEnd (t : LocalTransaction V) (segmentID : String) :
    LocalStep V :=
  match findNil t.segmentContainer.segments segmentID with
  | none => (t, [], some (Err.segmentNotOpen segmentID))
  | some _ =>
    let r := t.segmentWriteEnd segmentID
    (r.1, r.2.1, none)

/-- The segment block the message builders append when `inSegment`: present
exactly when the id is nonempty and currently open. -/
def LocalTransaction.segmentBlock (t : LocalTransaction V) (segmentID : String) :
    Option (String × String × GoMap String V) :=
  if segmentID.length > 0 then
    match findNil t.segmentContainer.segments segmentID with
    | some name =>
      some (name, segmentID, (findNil t.segmentContainer.attributes segmentID).getD [])
    | none => none
  else none

/-- `Error` (local.go): drives the lazy start (discarding its error), does one
capped `Read` of the payload (`telemetry.ErrorBytesSize` bytes, here `cap`;
an exhausted reader yields a read error), then emits the error record. -/
def LocalTransaction.Error (t : LocalTransaction V) (cap : Nat)
    (segmentID : String) (payload : List Char) : LocalStep V :=
  let s := t.segmentWriteStart segmentID
  let t1 := s.1
  let em1 := s.2.1
  if payload.isEmpty then (t1, em1, some Err.readError)
  else
    let errLog := payload.take cap
    (t1,
     em1 ++ [LocalRecord.errorMsg t1.trace t1.transaction (render t1.attributes)
        (t1.segmentBlock segmentID) errLog],
     none)

/-- `Info` (local.go): suppressed entirely at error verbosity; otherwise
drives the lazy start (discarding its error) and reads the WHOLE payload via
`io.ReadAll` (no byte cap, and no error for an in-memory source). -/
def LocalTransaction.Info (t : LocalTransaction V) (lvl : LogLevel)
    (segmentID : String) (payload : List Char) : LocalStep V :=
  if lvl = LogLevel.error then (t, [], none)
  else
    let s := t.segmentWriteStart segmentID
    let t1 := s.1
    let em1 := s.2.1
    (t1,
     em1 ++ [LocalRecord.infoMsg t1.trace t1.transaction (render t1.attributes)
        (t1.segmentBlock segmentID) payload],
     none)

/-- `Done` (local.go): logs the transaction end line and returns nil; it does
not touch any of the transaction's containers. -/
def LocalTransaction.Done (t : LocalTransaction V) : LocalStep V :=
  (t, [LocalRecord.txEnd t.transaction], none)

/-- `Erase` (local.go): sets the transaction attribute map and the segment
container's two maps to nil; `segmentsStartWasLogged` is left untouched. -/
def LocalTransaction.Erase (t : LocalTransaction V) : LocalTransaction V :=
  let c1 : LocalSegmentContainer V :=
    { t.segmentContainer with segments := none, attributes := none }
  { t with attributes := none, segmentContainer := c1 }

/-- A freshly constructed transaction carrying the same identity as `t`:
same name, trace and process id, with all containers newly allocated and
empty.  Used to compare post-`Erase` behaviour against fresh behaviour. -/
def freshLike (t : LocalTransaction V) : LocalTransaction V :=
  { newLocalTransaction V t.transaction with trace := t.trace, processID := t.processID }

/-- `ZeroLogSegmentContainer` from the nrZerolog driver file (same shape as
the local container). -/
structure ZeroLogSegmentContainer (V : Type) where
  segments : Option (GoMap String String)
  attributes : Option (GoMap String (GoMap String V))
  segmentsStartWasLogged : GoMap String Unit
deriving DecidableEq

/-- `ZeroLogTransaction` from the nrZerolog driver file (the zerolog logger
field is the backend sink; its output is modelled by the emitted records). -/
structure ZeroLogTransaction (V : Type) where
  name : String
  segmentContainer : ZeroLogSegmentContainer V
  attributes : Option (GoMap String V)
  trace : String
  processID : String
deriving DecidableEq

/-- A record emitted by the zerolog driver through `logTrace`: an info-level
line with the trace id (omitted when empty), the process id and every
transaction attribute. -/
inductive ZeroRecord (V : Type) where
  | traceMsg (traceID : Option String) (processID : String)
      (transactionAttributes : GoMap String V) (msg : String)
deriving DecidableEq

/-- `logTrace` (nrZerolog driver). -/
def ZeroLogTransaction.logTrace (t : ZeroLogTransaction V) (msg : String) :
    ZeroRecord V :=
  ZeroRecord.traceMsg (if t.trace ≠ "" then some t.trace else none) t.processID
    (render t.attributes) msg

/-- `Erase` (nrZerolog driver): nils the transaction attribute map and the
segment container's two maps, leaving `segmentsStartWasLogged` untouched. -/
def ZeroLogTransaction.Erase (t : ZeroLogTransaction V) : ZeroLogTransaction V :=
  let c1 : ZeroLogSegmentContainer V :=
    { t.segmentContainer with segments := none, attributes := none }
  { t with attributes := none, segmentContainer := c1 }

/-- `Done` (nrZerolog driver): emits the transaction end line via `logTrace`
(reading the attributes before they are erased) and then calls `Erase`. -/
def ZeroLogTransaction.Done (t : ZeroLogTransaction V) :
    ZeroLogTransaction V × List (ZeroRecord V) × Option Err :=
  (t.Erase, [t.logTrace ("Transaction end: " ++ t.name)], none)

/-- The segment-scoped operations a caller can run on one transaction (the
tracker lock serializes them, so a run is a sequence of whole operations). -/
inductive Op (V : Type) where
  | segStart (segmentID name : String)
  | segEnd (segmentID : String)
  | addAttr (segmentID key : String) (value : V)
  | infoOp (segmentID : String) (payload : List Char)
  | errorOp (segmentID : String) (payload : List Char)
deriving DecidableEq

/-- Run one operation; a nil-map write aborts the run as a Go panic would. -/
def stepOp (lvl : LogLevel) (cap : Nat) (t : LocalTransaction V) :
    Op V → Except GoPanic (LocalTransaction V × List (LocalRecord V))
  | Op.segStart segmentID name =>
    (t.SegmentStart lvl segmentID name).map (fun s => (s.1, s.2.1))
  | Op.segEnd segmentID =>
    let s := t.SegmentEnd segmentID
    Except.ok (s.1, s.2.1)
  | Op.addAttr segmentID key value =>
    (t.AddSegmentAttribute segmentID key value).map (fun s => (s.1, s.2.1))
  | Op.infoOp segmentID payload =>
    let s := t.Info lvl segmentID payload
    Except.ok (s.1, s.2.1)
  | Op.errorOp segmentID payload =>
    let s := t.Error cap segmentID payload
    Except.ok (s.1, s.2.1)

/-- Run a sequence of operations, concatenating the emitted records. -/
def run (lvl : LogLevel) (cap : Nat) (t : LocalTransaction V) :
    List (Op V) → Except GoPanic (LocalTransaction V × List (LocalRecord V))
  | [] => Except.ok (t, [])
  | op :: ops =>
    match stepOp lvl cap t op with
    | Except.error p => Except.error p
    | Except.ok (t1, em1) =>
      match run lvl cap t1 ops with
      | Except.error p => Except.error p
      | Except.ok (t2, em2) => Except.ok (t2, em1 ++ em2)

theorem run_append (lvl : LogLevel) (cap : Nat) (t : LocalTransaction V)
    (l1 l2 : List (Op V)) :
    run lvl cap t (l1 ++ l2) =
      match run lvl cap t l1 with
      | Except.error p => Except.error p
      | Except.ok (t1, em1) =>
        match run lvl cap t1 l2 with
        | Except.error p => Except.error p
        | Except.ok (t2, em2) => Except.ok (t2, em1 ++ em2) := by
  induction l1 generalizing t with
  | nil =>
    simp only [List.nil_append, run]
    cases h : run lvl cap t l2 with
    | error p => rfl
    | ok r =>
      obtain ⟨t2, em2⟩ := r
      simp
  | cons op ops ih =>
    simp only [List.cons_append, run]
    cases hs : stepOp lvl cap t op with
    | error p => rfl
    | ok r =>
      obtain ⟨t1, em1⟩ := r
      simp only [List.append_eq]
      rw [ih t1]
      cases h1 : run lvl cap t1 ops with
      | error p => rfl
      | ok r2 =>
        obtain ⟨t2, em2⟩ := r2
        dsimp only
        cases h2 : run lvl cap t2 l2 with
        | error p => rfl
        | ok r3 =>
          obtain ⟨t3, em3⟩ := r3
          simp

/-- Is this record the backend start record for the given segment id? -/
def LocalRecord.isStartFor (segmentID : String) : LocalRecord V → Bool
  | LocalRecord.segStart i _ => i == segmentID
  | _ => false

/-- Is this record the backend end record for the given segment id? -/
def LocalRecord.isEndFor (segmentID : String) : LocalRecord V → Bool
  | LocalRecord.segEnd i _ => i == segmentID
  | _ => false

/-- Is this record an info/error message record carrying the segment block of
the given segment id (a message emitted for that id while it was open)? -/
def LocalRecord.isSegMsgFor (segmentID : String) : LocalRecord V → Bool
  | LocalRecord.errorMsg _ _ _ (some s) _ => s.2.1 == segmentID
  | LocalRecord.infoMsg _ _ _ (some s) _ => s.2.1 == segmentID
  | _ => false

/-- Does the operation name this segment id? -/
def Op.targets (segmentID : String) : Op V → Bool
  | Op.segStart i _ => i == segmentID
  | Op.segEnd i => i == segmentID
  | Op.addAttr i _ _ => i == segmentID
  | Op.infoOp i _ => i == segmentID
  | Op.errorOp i _ => i == segmentID

/-- Every id marked start-emitted in the tracker already has its backend
start record in the trace. -/
def startLoggedSound (t : LocalTransaction V) (tr : List (LocalRecord V)) : Prop :=
  ∀ id : String,
    (t.segmentContainer.segmentsStartWasLogged.find? id).isSome →
    ∃ r ∈ tr, r.isStartFor id = true

/-- Every segment-scoped message record in the trace is preceded by the
segment's backend start record. -/
def orderedTrace (tr : List (LocalRecord V)) : Prop :=
  ∀ (l1 : List (LocalRecord V)) (r : LocalRecord V) (l2 : List (LocalRecord V)),
    tr = l1 ++ r :: l2 → ∀ id : String, r.isSegMsgFor id = true →
    ∃ s ∈ l1, s.isStartFor id = true

theorem GoMap.find?_insert_self {α β : Type} [DecidableEq α]
    (m : GoMap α β) (a : α) (b : β) :
    (m.insert a b).find? a = some b := by
  induction m with
  | nil => simp [GoMap.insert, GoMap.find?]
  | cons p m ih =>
    by_cases h : p.1 = a
    · simp [GoMap.insert, GoMap.find?, h]
    · simp [GoMap.insert, GoMap.find?, h, ih]

theorem GoMap.find?_insert_ne {α β : Type} [DecidableEq α]
    (m : GoMap α β) (a c : α) (b : β) (h : a ≠ c) :
    (m.insert a b).find? c = m.find? c := by
  induction m with
  | nil => simp [GoMap.insert, GoMap.find?, h]
  | cons p m ih =>
    by_cases hp : p.1 = a
    · simp [GoMap.insert, GoMap.find?, hp, h]
    · simp only [GoMap.insert, hp, if_false]
      by_cases hc : p.1 = c
      · simp [GoMap.find?, hc]
      · simp [GoMap.find?, hc, ih]

theorem GoMap.find?_erase_self {α β : Type} [DecidableEq α]
    (m : GoMap α β) (a : α) :
    (m.erase a).find? a = none := by
  induction m with
  | nil => simp [GoMap.erase, GoMap.find?]
  | cons p m ih =>
    by_cases h : p.1 = a
    · simp [GoMap.erase, h, ih]
    · simp [GoMap.erase, GoMap.find?, h, ih]

theorem GoMap.find?_erase_ne {α β : Type} [DecidableEq α]
    (m : GoMap α β) (a c : α) (h : a ≠ c) :
    (m.erase a).find? c = m.find? c := by
  induction m with
  | nil => simp [GoMap.erase]
  | cons p m ih =>
    obtain ⟨k, v⟩ := p
    by_cases hp : k = a
    · subst hp
      simp [GoMap.erase, GoMap.find?, h, ih]
    · by_cases hc : k = c
      · subst hc
        simp [GoMap.erase, GoMap.find?, hp]
      · simp [GoMap.erase, GoMap.find?, hp, hc, ih]

theorem findNil_eraseNil_self {α β : Type} [DecidableEq α]
    (m : Option (GoMap α β)) (a : α) :
    findNil (eraseNil m a) a = none := by
  cases m with
  | none => rfl
  | some mm => simp [findNil, eraseNil, GoMap.find?_erase_self]

theorem findNil_eraseNil_ne {α β : Type} [DecidableEq α]
    (m : Option (GoMap α β)) (a c : α) (h : a ≠ c) :
    findNil (eraseNil m a) c = findNil m c := by
  cases m with
  | none => rfl
  | some mm => simp [findNil, eraseNil, GoMap.find?_erase_ne mm a c h]

/-- Claim C7: for every segment id that is not currently open, SegmentEnd
returns the segment-not-open error and leaves the whole tracker state (the
segments map, the attributes map and the start-emitted set) unchanged, and
emits no backend record. -/
theorem c7_segmentEnd_not_open_unchanged (t : LocalTransaction V) (segmentID : String)
    (h : findNil t.segmentContainer.segments segmentID = none) :
    t.SegmentEnd segmentID = (t, [], some (Err.segmentNotOpen segmentID)) := by
  unfold LocalTransaction.SegmentEnd
  rw [h]

theorem c7_witness :
    findNil (newLocalTransaction String "tx").segmentContainer.segments "s" = none ∧
    (newLocalTransaction String "tx").SegmentEnd "s" =
      (newLocalTransaction String "tx", [], some (Err.segmentNotOpen "s")) :=
  ⟨rfl, c7_segmentEnd_not_open_unchanged (newLocalTransaction String "tx") "s" rfl⟩

/-- Claim C8: on an open segment, a first AddSegmentAttribute for a key
succeeds; a second one for the same key fails with the attribute-already-set
error, the state is the one after the first call, and the stored value for
the key remains the first value. -/
theorem c8_segment_attribute_first_write_wins (t : LocalTransaction V)
    (segmentID key name : String) (outer : GoMap String (GoMap String V)) (v1 v2 : V)
    (hseg : findNil t.segmentContainer.segments segmentID = some name)
    (houter : t.segmentContainer.attributes = some outer)
    (hkey : (((outer.find? segmentID).getD []).find? key) = none) :
    ∃ t1 : LocalTransaction V,
      t.AddSegmentAttribute segmentID key v1 = Except.ok (t1, [], none) ∧
      (((findNil t1.segmentContainer.attributes segmentID).getD []).find? key) = some v1 ∧
      t1.AddSegmentAttribute segmentID key v2 =
        Except.ok (t1, [], some (Err.attributeAlreadySet name segmentID key)) := by
  unfold LocalTransaction.AddSegmentAttribute
  rw [hseg, houter]
  dsimp only
  rw [hkey]
  refine ⟨_, rfl, ?_, ?_⟩
  · simp [findNil, GoMap.find?_insert_self]
  · rw [hseg]
    dsimp only
    rw [GoMap.find?_insert_self]
    dsimp only [Option.getD]
    rw [GoMap.find?_insert_self]

theorem c8_witness :
    let t0 := newLocalTransaction Nat "tx"
    ∃ t : LocalTransaction Nat,
      t0.SegmentStart LogLevel.error "s" "n" = Except.ok (t, [], none) ∧
      findNil t.segmentContainer.segments "s" = some "n" ∧
      ∃ t1 : LocalTransaction Nat,
        t.AddSegmentAttribute "s" "k" 1 = Except.ok (t1, [], none) ∧
        (((findNil t1.segmentContainer.attributes "s").getD []).find? "k") = some 1 ∧
        t1.AddSegmentAttribute "s" "k" 2 =
          Except.ok (t1, [], some (Err.attributeAlreadySet "n" "s" "k")) := by
  refine ⟨_, rfl, rfl, ?_⟩
  exact c8_segment_attribute_first_write_wins _ "s" "k" "n" [] 1 2 rfl rfl rfl

/-- Claim C9: restarting an id that is already open succeeds, silently
overwrites the stored segment name, emits nothing, and leaves the segment
open with its attribute bag and start-emitted status unchanged.  (At debug
verbosity an open segment has already had its start logged, which the last
hypothesis records.) -/
theorem c9_restart_overwrites_name (t : LocalTransaction V) (lvl : LogLevel)
    (segmentID name2 oldName : String) (m : GoMap String String)
    (hm : t.segmentContainer.segments = some m)
    (hopen : m.find? segmentID = some oldName)
    (hlogged : lvl = LogLevel.debug →
      (t.segmentContainer.segmentsStartWasLogged.find? segmentID).isSome = true) :
    ∃ t1 : LocalTransaction V,
      t.SegmentStart lvl segmentID name2 = Except.ok (t1, [], none) ∧
      findNil t1.segmentContainer.segments segmentID = some name2 ∧
      t1.segmentContainer.attributes = t.segmentContainer.attributes ∧
      t1.segmentContainer.segmentsStartWasLogged =
        t.segmentContainer.segmentsStartWasLogged ∧
      t1.attributes = t.attributes := by
  unfold LocalTransaction.SegmentStart
  rw [hm]
  dsimp only
  by_cases hlvl : lvl = LogLevel.debug
  · rw [if_pos hlvl]
    unfold LocalTransaction.segmentWriteStart
    dsimp only
    rw [if_pos (hlogged hlvl)]
    exact ⟨_, rfl, by simp [findNil, GoMap.find?_insert_self], rfl, rfl, rfl⟩
  · rw [if_neg hlvl]
    exact ⟨_, rfl, by simp [findNil, GoMap.find?_insert_self], rfl, rfl, rfl⟩

theorem c9_witness :
    ∃ t : LocalTransaction Nat,
      (newLocalTransaction Nat "tx").SegmentStart LogLevel.info "s" "n1" =
        Except.ok (t, [], none) ∧
      t.segmentContainer.segments = some [("s", "n1")] ∧
      ∃ t1 : LocalTransaction Nat,
        t.SegmentStart LogLevel.info "s" "n2" = Except.ok (t1, [], none) ∧
        findNil t1.segmentContainer.segments "s" = some "n2" ∧
        t1.segmentContainer.attributes = t.segmentContainer.attributes ∧
        t1.segmentContainer.segmentsStartWasLogged =
          t.segmentContainer.segmentsStartWasLogged ∧
        t1.attributes = t.attributes := by
  refine ⟨_, rfl, rfl, ?_⟩
  exact c9_restart_overwrites_name _ LogLevel.info "s" "n2" "n1" [("s", "n1")] rfl rfl
    (by intro h; cases h)

/-- Claim C3: at error verbosity, Info returns success immediately — no
record is emitted, no state change happens (in particular no lazy start
emission) — while Error emits its error record for every transaction state,
segment id and readable payload.  `LocalTransaction.Error` never consults
the verbosity at all (its definition takes no `LogLevel`), which is the
code's form of "regardless of verbosity". -/
theorem c3_error_level_info_suppressed_error_not (t : LocalTransaction V)
    (cap : Nat) (segmentID : String) (payload : List Char) (hp : payload ≠ []) :
    t.Info LogLevel.error segmentID payload = (t, [], none) ∧
    ∃ t1 : LocalTransaction V, ∃ em1 : List (LocalRecord V),
      t.Error cap segmentID payload =
        (t1, em1 ++ [LocalRecord.errorMsg t1.trace t1.transaction
            (render t1.attributes) (t1.segmentBlock segmentID) (payload.take cap)],
         none) := by
  constructor
  · rfl
  · unfold LocalTransaction.Error
    dsimp only
    rw [if_neg (by simp [List.isEmpty_iff, hp])]
    exact ⟨_, _, rfl⟩

theorem c3_witness :
    (['x'] : List Char) ≠ [] ∧
    ((newLocalTransaction Nat "tx").Info LogLevel.error "s" ['x'] =
        (newLocalTransaction Nat "tx", [], none) ∧
      ∃ t1 : LocalTransaction Nat, ∃ em1 : List (LocalRecord Nat),
        (newLocalTransaction Nat "tx").Error 5 "s" ['x'] =
          (t1, em1 ++ [LocalRecord.errorMsg t1.trace t1.transaction
              (render t1.attributes) (t1.segmentBlock "s") (['x'].take 5)],
           none)) :=
  ⟨by decide,
   c3_error_level_info_suppressed_error_not (newLocalTransaction Nat "tx") 5 "s" ['x']
     (by decide)⟩

theorem segmentWriteStart_preserves (t : LocalTransaction V) (segmentID : String) :
    (t.segmentWriteStart segmentID).1.transaction = t.transaction ∧
    (t.segmentWriteStart segmentID).1.trace = t.trace ∧
    (t.segmentWriteStart segmentID).1.attributes = t.attributes ∧
    (t.segmentWriteStart segmentID).1.segmentContainer.segments =
      t.segmentContainer.segments ∧
    (t.segmentWriteStart segmentID).1.segmentContainer.attributes =
      t.segmentContainer.attributes := by
  unfold LocalTransaction.segmentWriteStart
  split
  · exact ⟨rfl, rfl, rfl, rfl, rfl⟩
  · split
    · exact ⟨rfl, rfl, rfl, rfl, rfl⟩
    · exact ⟨rfl, rfl, rfl, rfl, rfl⟩

/-- Claim C10: calling Error — or, at non-error verbosity, Info — on a
segment id that is not open (including the empty id) returns no error: the
lazy-start failure for the unknown id is discarded, and a message record is
still emitted at transaction scope (trace, transaction name, transaction
attributes, no segment block). -/
theorem c10_unknown_id_message_at_transaction_scope (t : LocalTransaction V)
    (cap : Nat) (lvl : LogLevel) (segmentID : String) (payload : List Char)
    (hid : segmentID = "" ∨ findNil t.segmentContainer.segments segmentID = none)
    (hp : payload ≠ []) (hlvl : lvl ≠ LogLevel.error) :
    (∃ t1 : LocalTransaction V, ∃ em1 : List (LocalRecord V),
      t.Error cap segmentID payload =
        (t1, em1 ++ [LocalRecord.errorMsg t.trace t.transaction (render t.attributes)
          none (payload.take cap)], none)) ∧
    (∃ t1 : LocalTransaction V, ∃ em1 : List (LocalRecord V),
      t.Info lvl segmentID payload =
        (t1, em1 ++ [LocalRecord.infoMsg t.trace t.transaction (render t.attributes)
          none payload], none)) := by
  obtain ⟨htx, htr, hattr, hsegs, hsattr⟩ := segmentWriteStart_preserves t segmentID
  have hblock : (t.segmentWriteStart segmentID).1.segmentBlock segmentID = none := by
    unfold LocalTransaction.segmentBlock
    rcases hid with h0 | hnone
    · subst h0
      simp
    · rw [hsegs, hnone]
      split <;> rfl
  constructor
  · refine ⟨(t.segmentWriteStart segmentID).1, (t.segmentWriteStart segmentID).2.1, ?_⟩
    unfold LocalTransaction.Error
    dsimp only
    rw [if_neg (by simp [List.isEmpty_iff, hp])]
    rw [← htx, ← htr, ← hattr, ← hblock]
  · refine ⟨(t.segmentWriteStart segmentID).1, (t.segmentWriteStart segmentID).2.1, ?_⟩
    unfold LocalTransaction.Info
    rw [if_neg hlvl]
    dsimp only
    rw [← htx, ← htr, ← hattr, ← hblock]

theorem c10_witness :
    (("s" = "" ∨
        findNil (newLocalTransaction Nat "tx").segmentContainer.segments "s" = none) ∧
      (['x'] : List Char) ≠ [] ∧ LogLevel.info ≠ LogLevel.error) ∧
    ((∃ t1 : LocalTransaction Nat, ∃ em1 : List (LocalRecord Nat),
      (newLocalTransaction Nat "tx").Error 4 "s" ['x'] =
        (t1, em1 ++ [LocalRecord.errorMsg "" "tx" [] none ['x']], none)) ∧
     (∃ t1 : LocalTransaction Nat, ∃ em1 : List (LocalRecord Nat),
      (newLocalTransaction Nat "tx").Info LogLevel.info "s" ['x'] =
        (t1, em1 ++ [LocalRecord.infoMsg "" "tx" [] none ['x']], none))) :=
  ⟨⟨Or.inr rfl, by decide, by decide⟩,
   c10_unknown_id_message_at_transaction_scope (newLocalTransaction Nat "tx") 4
     LogLevel.info "s" ['x'] (Or.inr rfl) (by decide) (by decide)⟩

theorem segmentWriteStart_nil_segments (t : LocalTransaction V) (segmentID : String)
    (h : t.segmentContainer.segments = none) :
    (t.segmentWriteStart segmentID).1 = t ∧ (t.segmentWriteStart segmentID).2.1 = [] := by
  unfold LocalTransaction.segmentWriteStart
  split
  · exact ⟨rfl, rfl⟩
  · rw [h]
    exact ⟨rfl, rfl⟩

/-- Claim C4 fails as stated: after Erase, SegmentStart hits a nil-map write,
which in Go is a runtime panic rather than fresh-transaction behaviour. -/
theorem c4_counterexample :
    ((newLocalTransaction Nat "tx").Erase).SegmentStart LogLevel.error "s" "n" =
      Except.error GoPanic.nilMapWrite := rfl

/-- Claim C4 (amended): after Erase, the lookup-guarded operations —
SegmentEnd, AddSegmentAttribute, Error and Info — observably behave exactly
as on a freshly constructed transaction with the same identity (same
emissions and same returned error, no stale data in any result), but
SegmentStart and AddTransactionAttribute panic with a nil-map write instead
of behaving as on a fresh transaction. -/
theorem c4_amended_erase_behaviour (t : LocalTransaction V) (lvl : LogLevel)
    (cap : Nat) (segmentID key name : String) (v : V) (payload : List Char) :
    (t.Erase).SegmentStart lvl segmentID name = Except.error GoPanic.nilMapWrite ∧
    (t.Erase).AddTransactionAttribute key v = Except.error GoPanic.nilMapWrite ∧
    ((t.Erase).SegmentEnd segmentID).2 = ((freshLike t).SegmentEnd segmentID).2 ∧
    ((t.Erase).AddSegmentAttribute segmentID key v).map (fun s => s.2) =
      ((freshLike t).AddSegmentAttribute segmentID key v).map (fun s => s.2) ∧
    ((t.Erase).Error cap segmentID payload).2 =
      ((freshLike t).Error cap segmentID payload).2 ∧
    ((t.Erase).Info lvl segmentID payload).2 =
      ((freshLike t).Info lvl segmentID payload).2 := by
  obtain ⟨h1, h2⟩ := segmentWriteStart_nil_segments (t.Erase) segmentID rfl
  have hbe : (t.Erase).segmentBlock segmentID = none := by
    unfold LocalTransaction.segmentBlock
    split <;> rfl
  have hbf : (freshLike t).segmentBlock segmentID = none := by
    unfold LocalTransaction.segmentBlock
    split <;> rfl
  have hf : (freshLike t).segmentWriteStart segmentID =
      (freshLike t, [], some (Err.segmentNameNotFound segmentID)) := rfl
  refine ⟨rfl, rfl, rfl, rfl, ?_, ?_⟩
  · unfold LocalTransaction.Error
    dsimp only
    rw [h1, h2, hf]
    dsimp only
    cases payload with
    | nil => rfl
    | cons c cs =>
      rw [hbe, hbf]
      rfl
  · unfold LocalTransaction.Info
    by_cases hlvl : lvl = LogLevel.error
    · rw [if_pos hlvl, if_pos hlvl]
    · rw [if_neg hlvl, if_neg hlvl]
      dsimp only
      rw [h1, h2, hf]
      dsimp only
      rw [hbe, hbf]
      rfl

/-- Claim C5 fails as stated: with byte cap N = 1, Info (at info verbosity)
records the entire two-byte payload, so the recorded message exceeds N,
while Error with the same cap records only the first byte. -/
theorem c5_counterexample :
    ((newLocalTransaction Nat "tx").Info LogLevel.info "" ['a', 'b']).2.1 =
      [LocalRecord.infoMsg "" "tx" [] none ['a', 'b']] ∧
    ((newLocalTransaction Nat "tx").Error 1 "" ['a', 'b']).2.1 =
      [LocalRecord.errorMsg "" "tx" [] none ['a']] ∧
    ¬ (['a', 'b'] : List Char).length ≤ 1 :=
  ⟨rfl, rfl, by decide⟩

/-- Claim C5 (amended): Error reads only the first `cap` bytes off the
payload — its recorded message is `payload.take cap`, never longer than
`cap` — but the local driver's Info reads the whole payload with
`io.ReadAll`, so its recorded message is the full payload and may exceed
the cap. -/
theorem c5_amended_cap (t : LocalTransaction V) (cap : Nat) (lvl : LogLevel)
    (segmentID : String) (payload : List Char) (hp : payload ≠ [])
    (hlvl : lvl ≠ LogLevel.error) :
    (∃ t1 : LocalTransaction V, ∃ em1 : List (LocalRecord V),
      t.Error cap segmentID payload =
        (t1, em1 ++ [LocalRecord.errorMsg t1.trace t1.transaction
            (render t1.attributes) (t1.segmentBlock segmentID) (payload.take cap)],
         none) ∧
      (payload.take cap).length ≤ cap) ∧
    (∃ t1 : LocalTransaction V, ∃ em1 : List (LocalRecord V),
      t.Info lvl segmentID payload =
        (t1, em1 ++ [LocalRecord.infoMsg t1.trace t1.transaction
            (render t1.attributes) (t1.segmentBlock segmentID) payload],
         none)) := by
  constructor
  · refine ⟨(t.segmentWriteStart segmentID).1, (t.segmentWriteStart segmentID).2.1, ?_, ?_⟩
    · unfold LocalTransaction.Error
      dsimp only
      rw [if_neg (by simp [List.isEmpty_iff, hp])]
    · rw [List.length_take]
      exact min_le_left cap payload.length
  · refine ⟨(t.segmentWriteStart segmentID).1, (t.segmentWriteStart segmentID).2.1, ?_⟩
    unfold LocalTransaction.Info
    rw [if_neg hlvl]

theorem c5_witness :
    ((['x', 'y', 'z'] : List Char) ≠ [] ∧ LogLevel.debug ≠ LogLevel.error) ∧
    ((∃ t1 : LocalTransaction Nat, ∃ em1 : List (LocalRecord Nat),
      (newLocalTransaction Nat "tx").Error 2 "s" ['x', 'y', 'z'] =
        (t1, em1 ++ [LocalRecord.errorMsg t1.trace t1.transaction
            (render t1.attributes) (t1.segmentBlock "s") ['x', 'y']],
         none) ∧
      (['x', 'y'] : List Char).length ≤ 2) ∧
     (∃ t1 : LocalTransaction Nat, ∃ em1 : List (LocalRecord Nat),
      (newLocalTransaction Nat "tx").Info LogLevel.debug "s" ['x', 'y', 'z'] =
        (t1, em1 ++ [LocalRecord.infoMsg t1.trace t1.transaction
            (render t1.attributes) (t1.segmentBlock "s") ['x', 'y', 'z']],
         none))) :=
  ⟨⟨by decide, by decide⟩,
   c5_amended_cap (newLocalTransaction Nat "tx") 2 LogLevel.debug "s" ['x', 'y', 'z']
     (by decide) (by decide)⟩

/-- Claim C6 fails as stated for the local driver: Done leaves every
container exactly as it was — nothing is erased. -/
theorem c6_counterexample :
    (LocalTransaction.Done
      { transaction := "tx"
        segmentContainer :=
          { segments := some [("s", "n")]
            attributes := some [("s", [("k", (7 : Nat))])]
            segmentsStartWasLogged := [] }
        attributes := some [("a", (5 : Nat))]
        trace := ""
        processID := "" }).1.segmentContainer.segments = some [("s", "n")] ∧
    (LocalTransaction.Done
      { transaction := "tx"
        segmentContainer :=
          { segments := some [("s", "n")]
            attributes := some [("s", [("k", (7 : Nat))])]
            segmentsStartWasLogged := [] }
        attributes := some [("a", (5 : Nat))]
        trace := ""
        processID := "" }).1.attributes = some [("a", 5)] :=
  ⟨rfl, rfl⟩

/-- Claim C6 (amended): the zerolog driver's Done emits the transaction-end
record and then erases every owned container (all three nilable maps are nil
afterwards), whereas the local driver's Done only emits the transaction-end
record and erases nothing (the state is returned unchanged). -/
theorem c6_amended_done (zt : ZeroLogTransaction V) (t : LocalTransaction V) :
    (zt.Done.2.1 = [ZeroRecord.traceMsg (if zt.trace ≠ "" then some zt.trace else none)
        zt.processID (render zt.attributes) ("Transaction end: " ++ zt.name)] ∧
      zt.Done.2.2 = none ∧
      zt.Done.1.attributes = none ∧
      zt.Done.1.segmentContainer.segments = none ∧
      zt.Done.1.segmentContainer.attributes = none) ∧
    t.Done = (t, [LocalRecord.txEnd t.transaction], none) :=
  ⟨⟨rfl, rfl, rfl, rfl, rfl⟩, rfl⟩

theorem segmentWriteStart_other (t : LocalTransaction V) (id2 id : String)
    (hne : id2 ≠ id) :
    findNil (t.segmentWriteStart id2).1.segmentContainer.segments id =
      findNil t.segmentContainer.segments id ∧
    (t.segmentWriteStart id2).1.segmentContainer.segmentsStartWasLogged.find? id =
      t.segmentContainer.segmentsStartWasLogged.find? id ∧
    ∀ r ∈ (t.segmentWriteStart id2).2.1,
      r.isStartFor id = false ∧ r.isEndFor id = false := by
  unfold LocalTransaction.segmentWriteStart
  split
  · exact ⟨rfl, rfl, by simp⟩
  · split
    · exact ⟨rfl, rfl, by simp⟩
    · refine ⟨rfl, ?_, ?_⟩
      · exact GoMap.find?_insert_ne _ id2 id () hne
      · intro r hr
        simp only [List.mem_singleton] at hr
        subst hr
        exact ⟨by simp [LocalRecord.isStartFor, hne], by simp [LocalRecord.isEndFor]⟩

theorem segmentWriteEnd_other (t : LocalTransaction V) (id2 id : String)
    (hne : id2 ≠ id) :
    findNil (t.segmentWriteEnd id2).1.segmentContainer.segments id =
      findNil t.segmentContainer.segments id ∧
    (t.segmentWriteEnd id2).1.segmentContainer.segmentsStartWasLogged.find? id =
      t.segmentContainer.segmentsStartWasLogged.find? id ∧
    ∀ r ∈ (t.segmentWriteEnd id2).2.1,
      r.isStartFor id = false ∧ r.isEndFor id = false := by
  unfold LocalTransaction.segmentWriteEnd
  split
  · refine ⟨?_, rfl, by simp⟩
    exact findNil_eraseNil_ne _ id2 id hne
  · split
    · exact ⟨rfl, rfl, by simp⟩
    · refine ⟨?_, ?_, ?_⟩
      · exact findNil_eraseNil_ne _ id2 id hne
      · exact GoMap.find?_erase_ne _ id2 id hne
      · intro r hr
        simp only [List.mem_singleton] at hr
        subst hr
        exact ⟨by simp [LocalRecord.isStartFor], by simp [LocalRecord.isEndFor, hne]⟩


theorem stepOp_no_touch (lvl : LogLevel) (cap : Nat) (id : String) (op : Op V)
    (hop : op.targets id = false) (t t1 : LocalTransaction V)
    (em : List (LocalRecord V))
    (hs : stepOp lvl cap t op = Except.ok (t1, em)) :
    findNil t1.segmentContainer.segments id = findNil t.segmentContainer.segments id ∧
    t1.segmentContainer.segmentsStartWasLogged.find? id =
      t.segmentContainer.segmentsStartWasLogged.find? id ∧
    ∀ r ∈ em, r.isStartFor id = false ∧ r.isEndFor id = false := by
  cases op with
  | segStart id2 nm =>
    have hne : id2 ≠ id := by simpa [Op.targets] using hop
    simp only [stepOp, LocalTransaction.SegmentStart] at hs
    split at hs
    · cases hs
    · rename_i m hseg
      split at hs
      · simp only [Except.map, Except.ok.injEq, Prod.mk.injEq] at hs
        obtain ⟨h1, h2⟩ := hs
        subst h1
        subst h2
        refine ⟨?_, ?_, (segmentWriteStart_other _ id2 id hne).2.2⟩
        · rw [(segmentWriteStart_other _ id2 id hne).1, hseg]
          exact GoMap.find?_insert_ne m id2 id nm hne
        · exact (segmentWriteStart_other _ id2 id hne).2.1
      · simp only [Except.map, Except.ok.injEq, Prod.mk.injEq] at hs
        obtain ⟨h1, h2⟩ := hs
        subst h1
        subst h2
        refine ⟨?_, rfl, by simp⟩
        rw [hseg]
        exact GoMap.find?_insert_ne m id2 id nm hne
  | segEnd id2 =>
    have hne : id2 ≠ id := by simpa [Op.targets] using hop
    simp only [stepOp, LocalTransaction.SegmentEnd] at hs
    split at hs
    · simp only [Except.ok.injEq, Prod.mk.injEq] at hs
      obtain ⟨h1, h2⟩ := hs
      subst h1
      subst h2
      exact ⟨rfl, rfl, by simp⟩
    · simp only [Except.ok.injEq, Prod.mk.injEq] at hs
      obtain ⟨h1, h2⟩ := hs
      subst h1
      subst h2
      exact ⟨(segmentWriteEnd_other _ id2 id hne).1,
        (segmentWriteEnd_other _ id2 id hne).2.1,
        (segmentWriteEnd_other _ id2 id hne).2.2⟩
  | addAttr id2 k v =>
    simp only [stepOp, LocalTransaction.AddSegmentAttribute] at hs
    split at hs
    · simp only [Except.map, Except.ok.injEq, Prod.mk.injEq] at hs
      obtain ⟨h1, h2⟩ := hs
      subst h1
      subst h2
      exact ⟨rfl, rfl, by simp⟩
    · split at hs
      · cases hs
      · split at hs
        · simp only [Except.map, Except.ok.injEq, Prod.mk.injEq] at hs
          obtain ⟨h1, h2⟩ := hs
          subst h1
          subst h2
          exact ⟨rfl, rfl, by simp⟩
        · simp only [Except.map, Except.ok.injEq, Prod.mk.injEq] at hs
          obtain ⟨h1, h2⟩ := hs
          subst h1
          subst h2
          exact ⟨rfl, rfl, by simp⟩
  | infoOp id2 p =>
    have hne : id2 ≠ id := by simpa [Op.targets] using hop
    simp only [stepOp, LocalTransaction.Info] at hs
    split at hs
    · simp only [Except.ok.injEq, Prod.mk.injEq] at hs
      obtain ⟨h1, h2⟩ := hs
      subst h1
      subst h2
      exact ⟨rfl, rfl, by simp⟩
    · simp only [Except.ok.injEq, Prod.mk.injEq] at hs
      obtain ⟨h1, h2⟩ := hs
      subst h1
      subst h2
      refine ⟨(segmentWriteStart_other _ id2 id hne).1,
        (segmentWriteStart_other _ id2 id hne).2.1, ?_⟩
      intro r hr
      rcases List.mem_append.mp hr with h | h
      · exact (segmentWriteStart_other _ id2 id hne).2.2 r h
      · simp only [List.mem_singleton] at h
        subst h
        exact ⟨by simp [LocalRecord.isStartFor], by simp [LocalRecord.isEndFor]⟩
  | errorOp id2 p =>
    have hne : id2 ≠ id := by simpa [Op.targets] using hop
    simp only [stepOp, LocalTransaction.Error] at hs
    split at hs
    · simp only [Except.ok.injEq, Prod.mk.injEq] at hs
      obtain ⟨h1, h2⟩ := hs
      subst h1
      subst h2
      exact ⟨(segmentWriteStart_other _ id2 id hne).1,
        (segmentWriteStart_other _ id2 id hne).2.1,
        (segmentWriteStart_other _ id2 id hne).2.2⟩
    · simp only [Except.ok.injEq, Prod.mk.injEq] at hs
      obtain ⟨h1, h2⟩ := hs
      subst h1
      subst h2
      refine ⟨(segmentWriteStart_other _ id2 id hne).1,
        (segmentWriteStart_other _ id2 id hne).2.1, ?_⟩
      intro r hr
      rcases List.mem_append.mp hr with h | h
      · exact (segmentWriteStart_other _ id2 id hne).2.2 r h
      · simp only [List.mem_singleton] at h
        subst h
        exact ⟨by simp [LocalRecord.isStartFor], by simp [LocalRecord.isEndFor]⟩

theorem run_no_touch (lvl : LogLevel) (cap : Nat) (id : String) (ops : List (Op V))
    (hops : ∀ op ∈ ops, op.targets id = false) (t t' : LocalTransaction V)
    (em : List (LocalRecord V))
    (hrun : run lvl cap t ops = Except.ok (t', em)) :
    findNil t'.segmentContainer.segments id = findNil t.segmentContainer.segments id ∧
    t'.segmentContainer.segmentsStartWasLogged.find? id =
      t.segmentContainer.segmentsStartWasLogged.find? id ∧
    ∀ r ∈ em, r.isStartFor id = false ∧ r.isEndFor id = false := by
  induction ops generalizing t em with
  | nil =>
    simp only [run, Except.ok.injEq, Prod.mk.injEq] at hrun
    obtain ⟨h1, h2⟩ := hrun
    subst h1
    subst h2
    exact ⟨rfl, rfl, by simp⟩
  | cons op ops ih =>
    simp only [run] at hrun
    cases hstep : stepOp lvl cap t op with
    | error p =>
      rw [hstep] at hrun
      cases hrun
    | ok r =>
      obtain ⟨tmid, em1⟩ := r
      rw [hstep] at hrun
      dsimp only at hrun
      cases hrest : run lvl cap tmid ops with
      | error p =>
        rw [hrest] at hrun
        cases hrun
      | ok r2 =>
        obtain ⟨t2, em2⟩ := r2
        rw [hrest] at hrun
        simp only [Except.ok.injEq, Prod.mk.injEq] at hrun
        obtain ⟨h1, h2⟩ := hrun
        subst h1
        subst h2
        obtain ⟨s1, s2, s3⟩ := stepOp_no_touch lvl cap id op
          (hops op (List.mem_cons_self op ops)) t tmid em1 hstep
        obtain ⟨i1, i2, i3⟩ := ih
          (fun o ho => hops o (List.mem_cons_of_mem op ho)) tmid em2 hrest
        refine ⟨i1.trans s1, i2.trans s2, ?_⟩
        intro r hr
        rcases List.mem_append.mp hr with h | h
        · exact s3 r h
        · exact i3 r h

/-- Claim C1: at error verbosity, a segment opened with SegmentStart and
closed with SegmentEnd, with no intervening operation naming that id (in
particular no Info/Error on it), produces no backend start record and no
backend end record for that id — the id is registered and then freed
entirely silently. -/
theorem c1_error_level_silent_open_close (cap : Nat) (t : LocalTransaction V)
    (id name : String) (m : GoMap String String)
    (hm : t.segmentContainer.segments = some m)
    (hset : t.segmentContainer.segmentsStartWasLogged.find? id = none)
    (ops : List (Op V)) (hops : ∀ op ∈ ops, op.targets id = false)
    (t' : LocalTransaction V) (tr : List (LocalRecord V))
    (hrun : run LogLevel.error cap t
        (Op.segStart id name :: (ops ++ [Op.segEnd id])) = Except.ok (t', tr)) :
    (∀ r ∈ tr, r.isStartFor id = false ∧ r.isEndFor id = false) ∧
    findNil t'.segmentContainer.segments id = none := by
  simp only [run] at hrun
  have hstep : stepOp LogLevel.error cap t (Op.segStart id name) =
      Except.ok
        ({ t with segmentContainer :=
            { t.segmentContainer with segments := some (m.insert id name) } },
         []) := by
    simp only [stepOp, LocalTransaction.SegmentStart, hm]
    rfl
  rw [hstep] at hrun
  dsimp only at hrun
  rw [run_append] at hrun
  cases hmid : run LogLevel.error cap
      { t with segmentContainer :=
          { t.segmentContainer with segments := some (m.insert id name) } } ops with
  | error p =>
    rw [hmid] at hrun
    cases hrun
  | ok r2 =>
    obtain ⟨t2, em2⟩ := r2
    rw [hmid] at hrun
    dsimp only at hrun
    obtain ⟨n1, n2, n3⟩ := run_no_touch LogLevel.error cap id ops hops _ t2 em2 hmid
    have hopen2 : findNil t2.segmentContainer.segments id = some name := by
      rw [n1]
      dsimp only [findNil]
      exact GoMap.find?_insert_self m id name
    have hset2 : t2.segmentContainer.segmentsStartWasLogged.find? id = none := by
      rw [n2]
      exact hset
    have hend : stepOp LogLevel.error cap t2 (Op.segEnd id) =
        Except.ok
          ({ t2 with segmentContainer :=
              { t2.segmentContainer with
                  segments := eraseNil t2.segmentContainer.segments id
                  attributes := eraseNil t2.segmentContainer.attributes id } },
           []) := by
      simp only [stepOp, LocalTransaction.SegmentEnd, hopen2,
        LocalTransaction.segmentWriteEnd, hset2]
      rfl
    simp only [run, hend] at hrun
    simp only [Except.ok.injEq, Prod.mk.injEq] at hrun
    obtain ⟨h1, h2⟩ := hrun
    subst h1
    refine ⟨?_, ?_⟩
    · intro r hr
      rw [← h2] at hr
      simp only [List.nil_append, List.append_nil] at hr
      exact n3 r hr
    · exact findNil_eraseNil_self _ id

theorem c1_witness :
    (∀ r ∈ ([] : List (LocalRecord Nat)),
      r.isStartFor "a" = false ∧ r.isEndFor "a" = false) ∧
    findNil
      ({ transaction := "tx"
         segmentContainer :=
           { segments := some [("b", "nb")]
             attributes := some []
             segmentsStartWasLogged := [] }
         attributes := some []
         trace := ""
         processID := "" } : LocalTransaction Nat).segmentContainer.segments "a" =
      none :=
  c1_error_level_silent_open_close 8 (newLocalTransaction Nat "tx") "a" "n" [] rfl rfl
    [Op.segStart "b" "nb"] (by decide) _ [] rfl

theorem split_append_cons {γ : Type} (tr em l1 : List γ) (r : γ) (l2 : List γ)
    (h : tr ++ em = l1 ++ r :: l2) :
    (∃ l2a : List γ, tr = l1 ++ r :: l2a) ∨
    (∃ l1b l2b : List γ, em = l1b ++ r :: l2b ∧ l1 = tr ++ l1b) := by
  rcases List.append_eq_append_iff.mp h with ⟨a, ha1, ha2⟩ | ⟨c, hc1, hc2⟩
  · exact Or.inr ⟨a, l2, ha2, ha1⟩
  · cases c with
    | nil =>
      refine Or.inr ⟨[], l2, ?_, ?_⟩
      · simpa using hc2.symm
      · simpa using hc1.symm
    | cons x c2 =>
      simp only [List.cons_append] at hc2
      injection hc2 with hx hrest
      subst hx
      exact Or.inl ⟨c2, hc1⟩

theorem ordered_append (tr em : List (LocalRecord V))
    (hO : orderedTrace tr)
    (hem : ∀ (l1b : List (LocalRecord V)) (r : LocalRecord V)
        (l2b : List (LocalRecord V)),
      em = l1b ++ r :: l2b → ∀ id : String, r.isSegMsgFor id = true →
      ∃ s ∈ tr ++ l1b, s.isStartFor id = true) :
    orderedTrace (tr ++ em) := by
  intro l1 r l2 hsplit id hmsg
  rcases split_append_cons tr em l1 r l2 hsplit with ⟨l2a, h⟩ | ⟨l1b, l2b, hem2, hl1⟩
  · exact hO l1 r l2a h id hmsg
  · obtain ⟨s, hs1, hs2⟩ := hem l1b r l2b hem2 id hmsg
    subst hl1
    exact ⟨s, hs1, hs2⟩

theorem startLoggedSound_mono (t : LocalTransaction V)
    (tr em : List (LocalRecord V)) (h : startLoggedSound t tr) :
    startLoggedSound t (tr ++ em) := by
  intro id2 h2
  obtain ⟨r, hr, hr2⟩ := h id2 h2
  exact ⟨r, List.mem_append_left _ hr, hr2⟩

theorem segmentWriteStart_no_msg (t : LocalTransaction V) (id1 : String) :
    ∀ r ∈ (t.segmentWriteStart id1).2.1, ∀ id2 : String,
      r.isSegMsgFor id2 = false := by
  unfold LocalTransaction.segmentWriteStart
  split
  · simp
  · split
    · simp
    · intro r hr id2
      simp only [List.mem_singleton] at hr
      subst hr
      rfl

theorem segmentWriteStart_sound (t : LocalTransaction V) (id1 : String)
    (tr : List (LocalRecord V)) (hG : startLoggedSound t tr) :
    startLoggedSound (t.segmentWriteStart id1).1
      (tr ++ (t.segmentWriteStart id1).2.1) := by
  unfold LocalTransaction.segmentWriteStart
  split
  · intro id2 h2
    obtain ⟨r, hr, hr2⟩ := hG id2 h2
    exact ⟨r, List.mem_append_left _ hr, hr2⟩
  · split
    · intro id2 h2
      obtain ⟨r, hr, hr2⟩ := hG id2 h2
      exact ⟨r, List.mem_append_left _ hr, hr2⟩
    · rename_i nm hfind
      intro id2 h2
      dsimp only at h2
      by_cases he : id1 = id2
      · subst he
        exact ⟨LocalRecord.segStart id1 nm, List.mem_append_right _ (by simp),
          by simp [LocalRecord.isStartFor]⟩
      · rw [GoMap.find?_insert_ne _ id1 id2 () he] at h2
        obtain ⟨r, hr, hr2⟩ := hG id2 h2
        exact ⟨r, List.mem_append_left _ hr, hr2⟩

theorem segmentWriteStart_open_logged (t : LocalTransaction V) (id1 : String)
    (hopen : (findNil t.segmentContainer.segments id1).isSome = true) :
    (((t.segmentWriteStart id1).1).segmentContainer.segmentsStartWasLogged.find?
      id1).isSome = true := by
  unfold LocalTransaction.segmentWriteStart
  split
  · rename_i hc
    exact hc
  · split
    · rename_i hfind
      rw [hfind] at hopen
      simp at hopen
    · dsimp only
      rw [GoMap.find?_insert_self]
      rfl

theorem segmentWriteEnd_set_sound (t : LocalTransaction V) (id1 id2 : String)
    (h : (((t.segmentWriteEnd id1).1).segmentContainer.segmentsStartWasLogged.find?
      id2).isSome = true) :
    (t.segmentContainer.segmentsStartWasLogged.find? id2).isSome = true := by
  unfold LocalTransaction.segmentWriteEnd at h
  split at h
  · exact h
  · split at h
    · exact h
    · dsimp only at h
      by_cases he : id1 = id2
      · subst he
        rw [GoMap.find?_erase_self] at h
        simp at h
      · rw [GoMap.find?_erase_ne _ id1 id2 he] at h
        exact h

theorem segmentWriteEnd_no_msg (t : LocalTransaction V) (id1 : String) :
    ∀ r ∈ (t.segmentWriteEnd id1).2.1, ∀ id2 : String,
      r.isSegMsgFor id2 = false := by
  unfold LocalTransaction.segmentWriteEnd
  split
  · simp
  · split
    · simp
    · intro r hr id2
      simp only [List.mem_singleton] at hr
      subst hr
      rfl

theorem segmentBlock_some (t : LocalTransaction V) (segmentID : String)
    (s : String × String × GoMap String V)
    (h : t.segmentBlock segmentID = some s) :
    s.2.1 = segmentID ∧
    (findNil t.segmentContainer.segments segmentID).isSome = true := by
  unfold LocalTransaction.segmentBlock at h
  by_cases hlen : segmentID.length > 0
  · rw [if_pos hlen] at h
    cases hfind : findNil t.segmentContainer.segments segmentID with
    | none =>
      rw [hfind] at h
      cases h
    | some nm =>
      rw [hfind] at h
      injection h with h2
      subst h2
      exact ⟨rfl, by simp [hfind]⟩
  · rw [if_neg hlen] at h
    cases h

theorem ordered_append_no_msg (tr em : List (LocalRecord V))
    (hO : orderedTrace tr)
    (hnm : ∀ r ∈ em, ∀ id : String, r.isSegMsgFor id = false) :
    orderedTrace (tr ++ em) := by
  refine ordered_append tr em hO ?_
  intro l1b r l2b hsplit id hmsg
  have hr : r ∈ em := by
    rw [hsplit]
    exact List.mem_append_right _ (List.mem_cons_self r l2b)
  rw [hnm r hr id] at hmsg
  cases hmsg

theorem stepOp_ordered (lvl : LogLevel) (cap : Nat) (t t1 : LocalTransaction V)
    (op : Op V) (em tr : List (LocalRecord V))
    (hG : startLoggedSound t tr) (hO : orderedTrace tr)
    (hs : stepOp lvl cap t op = Except.ok (t1, em)) :
    startLoggedSound t1 (tr ++ em) ∧ orderedTrace (tr ++ em) := by
  cases op with
  | segStart id2 nm =>
    simp only [stepOp, LocalTransaction.SegmentStart] at hs
    split at hs
    · cases hs
    · split at hs
      · simp only [Except.map, Except.ok.injEq, Prod.mk.injEq] at hs
        obtain ⟨h1, h2⟩ := hs
        subst h1
        subst h2
        constructor
        · exact segmentWriteStart_sound _ id2 tr (fun i hi => hG i hi)
        · exact ordered_append_no_msg tr _ hO (segmentWriteStart_no_msg _ id2)
      · simp only [Except.map, Except.ok.injEq, Prod.mk.injEq] at hs
        obtain ⟨h1, h2⟩ := hs
        subst h1
        subst h2
        constructor
        · simp only [List.append_nil]
          exact fun i hi => hG i hi
        · simp only [List.append_nil]
          exact hO
  | segEnd id2 =>
    simp only [stepOp, LocalTransaction.SegmentEnd] at hs
    split at hs
    · simp only [Except.ok.injEq, Prod.mk.injEq] at hs
      obtain ⟨h1, h2⟩ := hs
      subst h1
      subst h2
      constructor
      · simp only [List.append_nil]
        exact hG
      · simp only [List.append_nil]
        exact hO
    · simp only [Except.ok.injEq, Prod.mk.injEq] at hs
      obtain ⟨h1, h2⟩ := hs
      subst h1
      subst h2
      constructor
      · exact startLoggedSound_mono _ tr _
          (fun i hi => hG i (segmentWriteEnd_set_sound _ id2 i hi))
      · exact ordered_append_no_msg tr _ hO (segmentWriteEnd_no_msg _ id2)
  | addAttr id2 k v =>
    simp only [stepOp, LocalTransaction.AddSegmentAttribute] at hs
    split at hs
    · simp only [Except.map, Except.ok.injEq, Prod.mk.injEq] at hs
      obtain ⟨h1, h2⟩ := hs
      subst h1
      subst h2
      exact ⟨by simpa using hG, by simpa using hO⟩
    · split at hs
      · cases hs
      · split at hs
        · simp only [Except.map, Except.ok.injEq, Prod.mk.injEq] at hs
          obtain ⟨h1, h2⟩ := hs
          subst h1
          subst h2
          exact ⟨by simpa using hG, by simpa using hO⟩
        · simp only [Except.map, Except.ok.injEq, Prod.mk.injEq] at hs
          obtain ⟨h1, h2⟩ := hs
          subst h1
          subst h2
          constructor
          · simp only [List.append_nil]
            exact fun i hi => hG i hi
          · simp only [List.append_nil]
            exact hO
  | infoOp id2 p =>
    simp only [stepOp, LocalTransaction.Info] at hs
    split at hs
    · simp only [Except.ok.injEq, Prod.mk.injEq] at hs
      obtain ⟨h1, h2⟩ := hs
      subst h1
      subst h2
      exact ⟨by simpa using hG, by simpa using hO⟩
    · simp only [Except.ok.injEq, Prod.mk.injEq] at hs
      obtain ⟨h1, h2⟩ := hs
      subst h1
      subst h2
      have hGs : startLoggedSound (t.segmentWriteStart id2).1
          (tr ++ (t.segmentWriteStart id2).2.1) :=
        segmentWriteStart_sound t id2 tr hG
      constructor
      · rw [← List.append_assoc]
        exact startLoggedSound_mono _ _ _ hGs
      · refine ordered_append tr _ hO ?_
        intro l1b r l2b hsplit id hmsg
        rcases split_append_cons (t.segmentWriteStart id2).2.1 _ l1b r l2b hsplit
          with ⟨l2a, hin⟩ | ⟨l1c, l2c, hone, hl1b⟩
        · have hr : r ∈ (t.segmentWriteStart id2).2.1 := by
            rw [hin]
            exact List.mem_append_right _ (List.mem_cons_self r l2a)
          rw [segmentWriteStart_no_msg t id2 r hr id] at hmsg
          cases hmsg
        · cases l1c with
          | cons y ys =>
            simp only [List.cons_append] at hone
            injection hone with hy htail
            simp at htail
          | nil =>
            simp only [List.nil_append] at hone
            injection hone with hr hnil
            subst hr
            cases hblk : ((t.segmentWriteStart id2).1.segmentBlock id2) with
            | none =>
              rw [hblk] at hmsg
              simp [LocalRecord.isSegMsgFor] at hmsg
            | some s =>
              rw [hblk] at hmsg
              simp only [LocalRecord.isSegMsgFor, beq_iff_eq] at hmsg
              obtain ⟨hsid, hopen1⟩ := segmentBlock_some _ id2 s hblk
              have hopen : (findNil t.segmentContainer.segments id2).isSome = true := by
                rw [← (segmentWriteStart_preserves t id2).2.2.2.1]
                exact hopen1
              have hlogged := segmentWriteStart_open_logged t id2 hopen
              obtain ⟨s2, hs2mem, hs2start⟩ := hGs id2 hlogged
              have hid : id = id2 := by rw [← hmsg, hsid]
              subst hid
              refine ⟨s2, ?_, hs2start⟩
              rw [hl1b]
              simpa using hs2mem
  | errorOp id2 p =>
    simp only [stepOp, LocalTransaction.Error] at hs
    have hGs : startLoggedSound (t.segmentWriteStart id2).1
        (tr ++ (t.segmentWriteStart id2).2.1) :=
      segmentWriteStart_sound t id2 tr hG
    split at hs
    · simp only [Except.ok.injEq, Prod.mk.injEq] at hs
      obtain ⟨h1, h2⟩ := hs
      subst h1
      subst h2
      exact ⟨hGs, ordered_append_no_msg tr _ hO (segmentWriteStart_no_msg _ id2)⟩
    · simp only [Except.ok.injEq, Prod.mk.injEq] at hs
      obtain ⟨h1, h2⟩ := hs
      subst h1
      subst h2
      constructor
      · rw [← List.append_assoc]
        exact startLoggedSound_mono _ _ _ hGs
      · refine ordered_append tr _ hO ?_
        intro l1b r l2b hsplit id hmsg
        rcases split_append_cons (t.segmentWriteStart id2).2.1 _ l1b r l2b hsplit
          with ⟨l2a, hin⟩ | ⟨l1c, l2c, hone, hl1b⟩
        · have hr : r ∈ (t.segmentWriteStart id2).2.1 := by
            rw [hin]
            exact List.mem_append_right _ (List.mem_cons_self r l2a)
          rw [segmentWriteStart_no_msg t id2 r hr id] at hmsg
          cases hmsg
        · cases l1c with
          | cons y ys =>
            simp only [List.cons_append] at hone
            injection hone with hy htail
            simp at htail
          | nil =>
            simp only [List.nil_append] at hone
            injection hone with hr hnil
            subst hr
            cases hblk : ((t.segmentWriteStart id2).1.segmentBlock id2) with
            | none =>
              rw [hblk] at hmsg
              simp [LocalRecord.isSegMsgFor] at hmsg
            | some s =>
              rw [hblk] at hmsg
              simp only [LocalRecord.isSegMsgFor, beq_iff_eq] at hmsg
              obtain ⟨hsid, hopen1⟩ := segmentBlock_some _ id2 s hblk
              have hopen : (findNil t.segmentContainer.segments id2).isSome = true := by
                rw [← (segmentWriteStart_preserves t id2).2.2.2.1]
                exact hopen1
              have hlogged := segmentWriteStart_open_logged t id2 hopen
              obtain ⟨s2, hs2mem, hs2start⟩ := hGs id2 hlogged
              have hid : id = id2 := by rw [← hmsg, hsid]
              subst hid
              refine ⟨s2, ?_, hs2start⟩
              rw [hl1b]
              simpa using hs2mem

theorem run_ordered (lvl : LogLevel) (cap : Nat) (ops : List (Op V))
    (t t' : LocalTransaction V) (em tr : List (LocalRecord V))
    (hG : startLoggedSound t tr) (hO : orderedTrace tr)
    (hrun : run lvl cap t ops = Except.ok (t', em)) :
    startLoggedSound t' (tr ++ em) ∧ orderedTrace (tr ++ em) := by
  induction ops generalizing t em tr with
  | nil =>
    simp only [run, Except.ok.injEq, Prod.mk.injEq] at hrun
    obtain ⟨h1, h2⟩ := hrun
    subst h1
    subst h2
    exact ⟨by simpa using hG, by simpa using hO⟩
  | cons op ops ih =>
    simp only [run] at hrun
    cases hstep : stepOp lvl cap t op with
    | error p =>
      rw [hstep] at hrun
      cases hrun
    | ok r =>
      obtain ⟨tmid, em1⟩ := r
      rw [hstep] at hrun
      dsimp only at hrun
      cases hrest : run lvl cap tmid ops with
      | error p =>
        rw [hrest] at hrun
        cases hrun
      | ok r2 =>
        obtain ⟨t2, em2⟩ := r2
        rw [hrest] at hrun
        simp only [Except.ok.injEq, Prod.mk.injEq] at hrun
        obtain ⟨h1, h2⟩ := hrun
        subst h1
        subst h2
        obtain ⟨hG1, hO1⟩ := stepOp_ordered lvl cap t tmid op em1 tr hG hO hstep
        obtain ⟨hG2, hO2⟩ := ih tmid em2 (tr ++ em1) hG1 hO1 hrest
        rw [← List.append_assoc]
        exact ⟨hG2, hO2⟩

/-- Claim C2: in any sequence of segment operations on a fresh transaction,
whenever the backend trace contains an info/error message record carrying a
segment block for some id (a message emitted for that id while it was
open), the segment's backend start record occurs strictly earlier in the
trace: Info and Error first drive the lazy start emission and only then
emit the message record. -/
theorem c2_start_record_precedes_segment_message (lvl : LogLevel) (cap : Nat)
    (name : String) (ops : List (Op V)) (t' : LocalTransaction V)
    (tr l1 : List (LocalRecord V)) (r : LocalRecord V) (l2 : List (LocalRecord V))
    (id : String)
    (hrun : run lvl cap (newLocalTransaction V name) ops = Except.ok (t', tr))
    (hsplit : tr = l1 ++ r :: l2) (hmsg : r.isSegMsgFor id = true) :
    ∃ s ∈ l1, s.isStartFor id = true := by
  have h0 : startLoggedSound (newLocalTransaction V name)
      ([] : List (LocalRecord V)) := by
    intro id2 h2
    simp [newLocalTransaction, GoMap.find?] at h2
  have o0 : orderedTrace ([] : List (LocalRecord V)) := by
    intro l1x rx l2x hx
    simp at hx
  obtain ⟨_, hOT⟩ := run_ordered lvl cap ops _ t' tr [] h0 o0 hrun
  exact hOT l1 r l2 (by simpa using hsplit) id hmsg

theorem c2_witness :
    (run LogLevel.info 4 (newLocalTransaction Nat "tx")
        [Op.segStart "a" "n", Op.errorOp "a" ['z']] =
      Except.ok
        ({ transaction := "tx"
           segmentContainer :=
             { segments := some [("a", "n")]
               attributes := some []
               segmentsStartWasLogged := [("a", ())] }
           attributes := some []
           trace := ""
           processID := "" },
         [LocalRecord.segStart "a" "n",
          LocalRecord.errorMsg "" "tx" [] (some ("n", "a", [])) ['z']]) ∧
      (LocalRecord.errorMsg "" "tx" ([] : GoMap String Nat)
        (some ("n", "a", [])) ['z']).isSegMsgFor "a" = true) ∧
    ∃ s ∈ ([LocalRecord.segStart "a" "n"] : List (LocalRecord Nat)),
      s.isStartFor "a" = true :=
  ⟨⟨rfl, rfl⟩,
   c2_start_record_precedes_segment_message LogLevel.info 4 "tx"
     [Op.segStart "a" "n", Op.errorOp "a" ['z']] _
     [LocalRecord.segStart "a" "n",
      LocalRecord.errorMsg "" "tx" [] (some ("n", "a", [])) ['z']]
     [LocalRecord.segStart "a" "n"]
     (LocalRecord.errorMsg "" "tx" [] (some ("n", "a", [])) ['z']) [] "a"
     rfl rfl rfl⟩
